import Mathlib

/-!
# BlackScholesPricer: verification of the pricing engine

Shallow embedding, over the real numbers, of the quantitative core of the
`BlackScholesPricer` repository (`src/models.py`, `src/models/greeks.py`,
`src/models/volatility.py`):

* `black_scholes`      — the closed-form solver (`models.py`, `black_scholes`);
* `binomial_tree`      — the lattice solver (`models.py`, `binomial_tree`);
* `monte_carlo`        — the simulation solver (`models.py`, `monte_carlo`),
  with the global NumPy random-generator state passed explicitly;
* `calculate_greeks`   — the sensitivity calculator (`greeks.py`);
* `calculate_historical_volatility` — the volatility estimator
  (`volatility.py`), with the network fetch passed explicitly.

Python floats are modelled as real numbers.  `scipy.stats.norm.cdf` and
`.pdf` are modelled by the genuine standard-normal cumulative distribution
function and density (`normCdf`, `normPdf` below).  A float expression that
is NaN in IEEE arithmetic (sample standard deviation of fewer than two
observations) is modelled by `Option.none`.
-/

open MeasureTheory ProbabilityTheory Real Set

/- Several claims quantify over parameter ranges (for example `0 < S`) that
the proofs do not need: the hypotheses are kept to mirror the claims. -/
set_option linter.unusedVariables false

/-- Density of the standard normal distribution: models `scipy.stats.norm.pdf`. -/
noncomputable def normPdf (x : ℝ) : ℝ := gaussianPDFReal 0 1 x

/-- Cumulative distribution function of the standard normal distribution:
models `scipy.stats.norm.cdf`. -/
noncomputable def normCdf (x : ℝ) : ℝ := ∫ t in Iic x, gaussianPDFReal 0 1 t

lemma normPdf_neg (x : ℝ) : normPdf (-x) = normPdf x := by
  simp [normPdf, gaussianPDFReal, neg_sq]

lemma normPdf_nonneg (x : ℝ) : 0 ≤ normPdf x := gaussianPDFReal_nonneg 0 1 x

/-- The standard normal CDF is symmetric: `Φ x + Φ (-x) = 1`. -/
lemma normCdf_add_normCdf_neg (x : ℝ) : normCdf x + normCdf (-x) = 1 := by
  have hint : Integrable (gaussianPDFReal 0 1) := integrable_gaussianPDFReal 0 1
  have hneg : normCdf (-x) = ∫ t in Ioi x, gaussianPDFReal 0 1 t := by
    rw [normCdf, ← integral_comp_neg_Ioi]
    refine setIntegral_congr_fun measurableSet_Ioi fun t _ => ?_
    simp [gaussianPDFReal, neg_sq]
  rw [hneg, normCdf, intervalIntegral.integral_Iic_add_Ioi hint.integrableOn hint.integrableOn,
    integral_gaussianPDFReal_eq_one 0 one_ne_zero]

/-! ## The error type

`models.py` raises `ValueError("Invalid option type. Choose 'call' or 'put'.")`
in `black_scholes` when the option-type string is neither `"call"` nor
`"put"`.  That raise is the only typed failure anywhere in the engine; the
spec calls the corresponding failure `DomainError`. -/

inductive PricingError where
  | invalidOptionType
deriving DecidableEq

/-! ## Closed-form solver (`models.py`, `black_scholes`) -/

/-- Embedding of `black_scholes(S, K, T, r, sigma, option_type)`.  The raised
`ValueError` on an unrecognised option type is modelled as `Except.error`;
every other path returns the computed float, modelled as `Except.ok`. -/
noncomputable def black_scholes (S K T r sigma : ℝ) (option_type : String) :
    Except PricingError ℝ :=
  let d1 := (Real.log (S / K) + (r + 0.5 * sigma ^ 2) * T) / (sigma * Real.sqrt T)
  let d2 := d1 - sigma * Real.sqrt T
  if option_type = "call" then
    Except.ok (S * normCdf d1 - K * Real.exp (-r * T) * normCdf d2)
  else if option_type = "put" then
    Except.ok (K * Real.exp (-r * T) * normCdf (-d2) - S * normCdf (-d1))
  else
    Except.error PricingError.invalidOptionType

/-! ## Greeks calculator (`src/models/greeks.py`, `calculate_greeks`).
The same function is duplicated verbatim at the bottom of `models.py`. -/

/-- The Python dict `{"delta": ..., "gamma": ..., "theta": ..., "vega": ...,
"rho": ...}` returned by `calculate_greeks`. -/
structure Greeks where
  delta : ℝ
  gamma : ℝ
  theta : ℝ
  vega : ℝ
  rho : ℝ

/-- Embedding of `calculate_greeks(S, K, T, r, sigma, option_type)`.  Note
the source has no error branch: each greek is a conditional expression whose
`else` arm is used for every option type other than `"call"`. -/
noncomputable def calculate_greeks (S K T r sigma : ℝ) (option_type : String) : Greeks :=
  let d1 := (Real.log (S / K) + (r + 0.5 * sigma ^ 2) * T) / (sigma * Real.sqrt T)
  let d2 := d1 - sigma * Real.sqrt T
  { delta := if option_type = "call" then normCdf d1 else normCdf d1 - 1
    gamma := normPdf d1 / (S * sigma * Real.sqrt T)
    theta := if option_type = "call" then
        -(S * normPdf d1 * sigma) / (2 * Real.sqrt T) - r * K * Real.exp (-r * T) * normCdf d2
      else
        -(S * normPdf d1 * sigma) / (2 * Real.sqrt T) + r * K * Real.exp (-r * T) * normCdf (-d2)
    vega := S * Real.sqrt T * normPdf d1
    rho := if option_type = "call" then K * T * Real.exp (-r * T) * normCdf d2
      else -(K * T * Real.exp (-r * T) * normCdf (-d2)) }

/-! ## Lattice solver (`models.py`, `binomial_tree`)

The source fills an `(N+1) × (N+1)` matrix `option_values` whose column `i`
holds the layer-`i` values `V[j, i]` (`j ≤ i`), then reads `V[0, 0]`.
`btAux k j` is the value `option_values[j, N - k]`: fuel `k` counts how many
backward-induction steps separate the node from the terminal layer, matching
the `for i in range(N-1, -1, -1)` loop; only the two adjacent entries of the
next column are read, so the matrix reduces to this recursion. -/

/-- `dt = T / N`. -/
noncomputable def btDt (T : ℝ) (N : ℕ) : ℝ := T / N

/-- `u = np.exp(sigma * np.sqrt(dt))`. -/
noncomputable def btU (T sigma : ℝ) (N : ℕ) : ℝ := Real.exp (sigma * Real.sqrt (btDt T N))

/-- `d = 1 / u`. -/
noncomputable def btD (T sigma : ℝ) (N : ℕ) : ℝ := 1 / btU T sigma N

/-- `p = (np.exp(r * dt) - d) / (u - d)`. -/
noncomputable def btP (T r sigma : ℝ) (N : ℕ) : ℝ :=
  (Real.exp (r * btDt T N) - btD T sigma N) / (btU T sigma N - btD T sigma N)

/-- Terminal payoff applied to a stock price, as in the terminal columns of
`binomial_tree` and the per-path payoffs of `monte_carlo`: any option type
other than `"call"` takes the put branch (`else`, not an error). -/
noncomputable def optionPayoff (option_type : String) (K st : ℝ) : ℝ :=
  if option_type = "call" then max (st - K) 0 else max (K - st) 0

/-- `btAux S K T r sigma N option_type k j = option_values[j, N - k]`:
fuel `0` is the terminal column `np.maximum(±(stock_prices[:, N] - K), 0)`
with `stock_prices[j, N] = S * u**(N-j) * d**j`; fuel `k+1` is one step of
`option_values[j, i] = np.exp(-r*dt) * (p * option_values[j, i+1] +
(1-p) * option_values[j+1, i+1])`. -/
noncomputable def btAux (S K T r sigma : ℝ) (N : ℕ) (option_type : String) :
    ℕ → ℕ → ℝ
  | 0, j => optionPayoff option_type K (S * btU T sigma N ^ (N - j) * btD T sigma N ^ j)
  | k + 1, j =>
      Real.exp (-r * btDt T N) *
        (btP T r sigma N * btAux S K T r sigma N option_type k j +
          (1 - btP T r sigma N) * btAux S K T r sigma N option_type k (j + 1))

/-- Embedding of `binomial_tree(S, K, T, r, sigma, N, option_type)`: the
returned entry `option_values[0, 0]`. -/
noncomputable def binomial_tree (S K T r sigma : ℝ) (N : ℕ) (option_type : String) : ℝ :=
  btAux S K T r sigma N option_type N 0

/-! ## Simulation solver (`models.py`, `monte_carlo`)

The source's only effect is on NumPy's global pseudo-random generator: it
executes `np.random.seed(42)` and then draws `simulations` standard normals.
The global generator is modelled by explicit state passing: `rngState` is
the state on entry, the second component of the result is the state on exit.
`normals st m` is the vector returned by `np.random.standard_normal(m)` when
the generator is in state `st`, and `advance st m` the state after that
draw; both are parameters because NumPy's generator is external to the
repository.  `np.random.seed(42)` replaces the incoming state with `42`. -/

/-- Embedding of `monte_carlo(S, K, T, r, sigma, simulations, option_type)`
with the global RNG state explicit.  `np.mean` of a vector is its sum
divided by its length. -/
noncomputable def monte_carlo (normals : ℕ → ℕ → List ℝ) (advance : ℕ → ℕ → ℕ)
    (_rngState : ℕ) (S K T r sigma : ℝ) (simulations : ℕ) (option_type : String) :
    ℝ × ℕ :=
  let seeded := 42
  let Z := normals seeded simulations
  let ST := Z.map fun z => S * Real.exp ((r - 0.5 * sigma ^ 2) * T + sigma * Real.sqrt T * z)
  let payoff := ST.map (optionPayoff option_type K)
  (Real.exp (-r * T) * (payoff.sum / payoff.length), advance seeded simulations)

/-! ## Volatility estimator (`src/models/volatility.py`,
`calculate_historical_volatility`; duplicated in `models.py`)

The source fetches `yf.Ticker(ticker).history(period)["Close"]` from the
network, so the close-price series is a function of the external data
provider, modelled by the parameter `fetchClose`.  The numerical core is
`np.log(close / close.shift(1)).dropna().std() * np.sqrt(252)`: pandas
`.std()` uses `ddof = 1` and returns NaN when fewer than two log returns
remain after `dropna()`; NaN is modelled as `Option.none`. -/

/-- `np.log(close / close.shift(1)).dropna()`: the series of successive log
returns `ln(P_t / P_(t-1))`, one per adjacent pair. -/
noncomputable def logReturns (closes : List ℝ) : List ℝ :=
  (closes.zip closes.tail).map fun pq => Real.log (pq.2 / pq.1)

/-- pandas `Series.std()` (`ddof = 1`): `sqrt(Σ (x - mean)² / (n - 1))`,
NaN (`none`) when `n < 2`. -/
noncomputable def sampleStd (xs : List ℝ) : Option ℝ :=
  if 2 ≤ xs.length then
    some (Real.sqrt ((xs.map fun x => (x - xs.sum / (xs.length : ℝ)) ^ 2).sum /
      ((xs.length : ℝ) - 1)))
  else none

/-- Embedding of `calculate_historical_volatility(ticker, period)`:
`log_returns.std() * np.sqrt(252)` over the fetched close series. -/
noncomputable def calculate_historical_volatility (fetchClose : String → String → List ℝ)
    (ticker period : String) : Option ℝ :=
  (sampleStd (logReturns (fetchClose ticker period))).map fun s => s * Real.sqrt 252

/-! ## Specification-side definitions

The following definitions transcribe the formulas of the specification
document (sections 4.1, 4.2 and 4.4) verbatim, to be compared with the
embeddings above. -/

/-- Spec 4.1: `d1 = (ln(S/K) + (r + σ²/2)·T) / (σ·√T)`. -/
noncomputable def specD1 (S K T r sigma : ℝ) : ℝ :=
  (Real.log (S / K) + (r + sigma ^ 2 / 2) * T) / (sigma * Real.sqrt T)

/-- Spec 4.1: `d2 = d1 − σ·√T`. -/
noncomputable def specD2 (S K T r sigma : ℝ) : ℝ :=
  specD1 S K T r sigma - sigma * Real.sqrt T

/-- Spec 4.1, call price: `S·Φ(d1) − K·e^(−rT)·Φ(d2)`. -/
noncomputable def specCallPrice (S K T r sigma : ℝ) : ℝ :=
  S * normCdf (specD1 S K T r sigma) -
    K * Real.exp (-(r * T)) * normCdf (specD2 S K T r sigma)

/-- Spec 4.1, put price: `K·e^(−rT)·Φ(−d2) − S·Φ(−d1)`. -/
noncomputable def specPutPrice (S K T r sigma : ℝ) : ℝ :=
  K * Real.exp (-(r * T)) * normCdf (-specD2 S K T r sigma) -
    S * normCdf (-specD1 S K T r sigma)

/-- Spec 4.4, call Greeks: delta `Φ(d1)`, gamma `φ(d1)/(S·σ·√T)`, theta
`−(S·φ(d1)·σ)/(2√T) − r·K·e^(−rT)·Φ(d2)`, vega `S·√T·φ(d1)`, rho
`K·T·e^(−rT)·Φ(d2)`. -/
noncomputable def specGreeksCall (S K T r sigma : ℝ) : Greeks :=
  { delta := normCdf (specD1 S K T r sigma)
    gamma := normPdf (specD1 S K T r sigma) / (S * sigma * Real.sqrt T)
    theta := -(S * normPdf (specD1 S K T r sigma) * sigma) / (2 * Real.sqrt T) -
      r * K * Real.exp (-(r * T)) * normCdf (specD2 S K T r sigma)
    vega := S * Real.sqrt T * normPdf (specD1 S K T r sigma)
    rho := K * T * Real.exp (-(r * T)) * normCdf (specD2 S K T r sigma) }

/-- Spec 4.4, put Greeks: delta `Φ(d1) − 1`, gamma as for calls, theta with
the `rK` term's sign and `Φ` argument flipped, vega as for calls, rho
`−K·T·e^(−rT)·Φ(−d2)`. -/
noncomputable def specGreeksPut (S K T r sigma : ℝ) : Greeks :=
  { delta := normCdf (specD1 S K T r sigma) - 1
    gamma := normPdf (specD1 S K T r sigma) / (S * sigma * Real.sqrt T)
    theta := -(S * normPdf (specD1 S K T r sigma) * sigma) / (2 * Real.sqrt T) +
      r * K * Real.exp (-(r * T)) * normCdf (-specD2 S K T r sigma)
    vega := S * Real.sqrt T * normPdf (specD1 S K T r sigma)
    rho := -(K * T * Real.exp (-(r * T)) * normCdf (-specD2 S K T r sigma)) }

/-- Spec 4.2: up-factor `u = e^(σ√Δt)` with `Δt = T/N`. -/
noncomputable def specUp (T sigma : ℝ) (N : ℕ) : ℝ := Real.exp (sigma * Real.sqrt (T / N))

/-- Spec 4.2: down-factor `d = 1/u`. -/
noncomputable def specDown (T sigma : ℝ) (N : ℕ) : ℝ := 1 / specUp T sigma N

/-- Spec 4.2: risk-neutral up-probability `p = (e^(rΔt) − d)/(u − d)`. -/
noncomputable def specProb (T r sigma : ℝ) (N : ℕ) : ℝ :=
  (Real.exp (r * (T / N)) - specDown T sigma N) / (specUp T sigma N - specDown T sigma N)

/-- Spec 4.2, the backward-induction recursion on tree nodes `(j, i)`:
terminal values `V[j,N]` are the payoff at `S·u^(N−j)·d^j` and interior
values satisfy `V[j,i] = e^(−rΔt)·(p·V[j,i+1] + (1−p)·V[j+1,i+1])`. -/
noncomputable def specV (S K T r sigma : ℝ) (N : ℕ) (isCall : Bool) (j i : ℕ) : ℝ :=
  if N ≤ i then
    if isCall then max (S * specUp T sigma N ^ (N - j) * specDown T sigma N ^ j - K) 0
    else max (K - S * specUp T sigma N ^ (N - j) * specDown T sigma N ^ j) 0
  else
    Real.exp (-(r * (T / N))) *
      (specProb T r sigma N * specV S K T r sigma N isCall j (i + 1) +
        (1 - specProb T r sigma N) * specV S K T r sigma N isCall (j + 1) (i + 1))
termination_by N - i
decreasing_by all_goals omega

/-! ## Helper lemmas -/

lemma d1_code_eq (S K T r sigma : ℝ) :
    (Real.log (S / K) + (r + 0.5 * sigma ^ 2) * T) / (sigma * Real.sqrt T) =
      specD1 S K T r sigma := by
  unfold specD1; ring_nf

lemma black_scholes_call (S K T r sigma : ℝ) :
    black_scholes S K T r sigma "call" = Except.ok (specCallPrice S K T r sigma) := by
  simp only [black_scholes, reduceIte]
  rw [d1_code_eq, specCallPrice, specD2, neg_mul]

lemma black_scholes_put (S K T r sigma : ℝ) :
    black_scholes S K T r sigma "put" = Except.ok (specPutPrice S K T r sigma) := by
  simp only [black_scholes]
  rw [if_neg (by decide)]
  simp only [if_true]
  rw [d1_code_eq, specPutPrice, specD2, neg_mul]

lemma specCall_sub_specPut (S K T r sigma : ℝ) :
    specCallPrice S K T r sigma - specPutPrice S K T r sigma =
      S - K * Real.exp (-(r * T)) := by
  have h1 := normCdf_add_normCdf_neg (specD1 S K T r sigma)
  have h2 := normCdf_add_normCdf_neg (specD2 S K T r sigma)
  unfold specCallPrice specPutPrice
  linear_combination S * h1 - K * Real.exp (-(r * T)) * h2

lemma calculate_greeks_call (S K T r sigma : ℝ) :
    calculate_greeks S K T r sigma "call" = specGreeksCall S K T r sigma := by
  simp only [calculate_greeks, reduceIte, specGreeksCall]
  rw [d1_code_eq, specD2, neg_mul]

lemma calculate_greeks_put (S K T r sigma : ℝ) :
    calculate_greeks S K T r sigma "put" = specGreeksPut S K T r sigma := by
  simp only [calculate_greeks, if_neg (show ¬("put" : String) = "call" by decide),
    specGreeksPut]
  rw [d1_code_eq, specD2, neg_mul]

lemma specUp_eq_btU (T sigma : ℝ) (N : ℕ) : specUp T sigma N = btU T sigma N := rfl

lemma specDown_eq_btD (T sigma : ℝ) (N : ℕ) : specDown T sigma N = btD T sigma N := rfl

lemma specProb_eq_btP (T r sigma : ℝ) (N : ℕ) : specProb T r sigma N = btP T r sigma N := rfl

/-- The imperative backward loop of `binomial_tree` computes the
specification's node-value recursion: `option_values[j, N - k]` equals
`V[j, N - k]` for every fuel `k ≤ N`. -/
lemma btAux_eq_specV (S K T r sigma : ℝ) (N : ℕ) (ot : String) (isCall : Bool)
    (hot : ot = "call" ↔ isCall = true) :
    ∀ k j, k ≤ N → btAux S K T r sigma N ot k j = specV S K T r sigma N isCall j (N - k) := by
  intro k
  induction k with
  | zero =>
    intro j _
    rw [specV, Nat.sub_zero, if_pos le_rfl]
    cases isCall with
    | true =>
      have hc : ot = "call" := hot.mpr rfl
      simp only [hc, btAux, optionPayoff, reduceIte, if_true, specUp_eq_btU, specDown_eq_btD]
    | false =>
      have hc : ¬ot = "call" := fun h => by simpa using hot.mp h
      simp only [btAux, optionPayoff, if_neg hc, if_false, Bool.false_eq_true,
        specUp_eq_btU, specDown_eq_btD]
  | succ k ih =>
    intro j hk
    have hk' : k ≤ N := Nat.le_of_succ_le hk
    rw [specV, if_neg (by omega : ¬N ≤ N - (k + 1)),
      (by omega : N - (k + 1) + 1 = N - k)]
    rw [btAux, ih j hk', ih (j + 1) hk', specProb_eq_btP, btDt, neg_mul]

lemma optionPayoff_ne_call (ot : String) (h : ¬ot = "call") (K st : ℝ) :
    optionPayoff ot K st = optionPayoff "put" K st := by
  simp only [optionPayoff, if_neg h, if_neg (show ¬("put" : String) = "call" by decide)]

lemma btAux_ne_call (S K T r sigma : ℝ) (N : ℕ) (ot : String) (h : ¬ot = "call") :
    ∀ k j, btAux S K T r sigma N ot k j = btAux S K T r sigma N "put" k j := by
  intro k
  induction k with
  | zero => intro j; simp only [btAux, optionPayoff_ne_call ot h]
  | succ k ih => intro j; simp only [btAux, ih]

lemma monte_carlo_ne_call (normals : ℕ → ℕ → List ℝ) (advance : ℕ → ℕ → ℕ) (st : ℕ)
    (S K T r sigma : ℝ) (M : ℕ) (ot : String) (h : ¬ot = "call") :
    monte_carlo normals advance st S K T r sigma M ot =
      monte_carlo normals advance st S K T r sigma M "put" := by
  have hfun : optionPayoff ot K = optionPayoff "put" K :=
    funext (optionPayoff_ne_call ot h K)
  simp only [monte_carlo, hfun]

lemma length_logReturns (closes : List ℝ) :
    (logReturns closes).length = closes.length - 1 := by
  simp only [logReturns, List.length_map, List.length_zip, List.length_tail]
  omega

lemma optionPayoff_nonneg (ot : String) (K st : ℝ) : 0 ≤ optionPayoff ot K st := by
  unfold optionPayoff
  split <;> exact le_max_right _ _

lemma btAux_nonneg (S K T r sigma : ℝ) (N : ℕ) (ot : String)
    (hp0 : 0 ≤ btP T r sigma N) (hp1 : btP T r sigma N ≤ 1) :
    ∀ k j, 0 ≤ btAux S K T r sigma N ot k j := by
  intro k
  induction k with
  | zero => intro j; exact optionPayoff_nonneg _ _ _
  | succ k ih =>
    intro j
    exact mul_nonneg (Real.exp_pos _).le
      (add_nonneg (mul_nonneg hp0 (ih j)) (mul_nonneg (by linarith) (ih (j + 1))))

/-! ## Claims -/

/-- Claim C1: for every parameter set with `S > 0`, `K > 0`, `T > 0`,
`σ > 0` and any real `r`, the closed-form solver returns
`S·Φ(d1) − K·e^(−rT)·Φ(d2)` for a call and
`K·e^(−rT)·Φ(−d2) − S·Φ(−d1)` for a put, with
`d1 = (ln(S/K) + (r + σ²/2)·T)/(σ·√T)` and `d2 = d1 − σ·√T`
and `Φ` the standard-normal CDF. -/
theorem c1_closed_form_formula (S K T r sigma : ℝ)
    (hS : 0 < S) (hK : 0 < K) (hT : 0 < T) (hsig : 0 < sigma) :
    black_scholes S K T r sigma "call" = Except.ok (specCallPrice S K T r sigma) ∧
    black_scholes S K T r sigma "put" = Except.ok (specPutPrice S K T r sigma) :=
  ⟨black_scholes_call S K T r sigma, black_scholes_put S K T r sigma⟩

/-- Witness for C1 at `S = K = T = σ = 1`, `r = 0`. -/
theorem c1_closed_form_formula_witness :
    (0 : ℝ) < 1 ∧
    (black_scholes 1 1 1 0 1 "call" = Except.ok (specCallPrice 1 1 1 0 1) ∧
     black_scholes 1 1 1 0 1 "put" = Except.ok (specPutPrice 1 1 1 0 1)) :=
  ⟨by norm_num,
    c1_closed_form_formula 1 1 1 0 1 (by norm_num) (by norm_num) (by norm_num) (by norm_num)⟩

/-- Claim C2: put–call parity.  For every parameter set with `S > 0`,
`K > 0`, `T > 0`, `σ > 0` and any real `r`, the closed-form call price minus
the closed-form put price equals `S − K·e^(−rT)` exactly, over real
arithmetic. -/
theorem c2_put_call_parity (S K T r sigma : ℝ)
    (hS : 0 < S) (hK : 0 < K) (hT : 0 < T) (hsig : 0 < sigma) :
    ∃ c p, black_scholes S K T r sigma "call" = Except.ok c ∧
      black_scholes S K T r sigma "put" = Except.ok p ∧
      c - p = S - K * Real.exp (-(r * T)) :=
  ⟨specCallPrice S K T r sigma, specPutPrice S K T r sigma,
    black_scholes_call S K T r sigma, black_scholes_put S K T r sigma,
    specCall_sub_specPut S K T r sigma⟩

/-- Witness for C2 at `S = K = T = σ = 1`, `r = 0`. -/
theorem c2_put_call_parity_witness :
    (0 : ℝ) < 1 ∧
    ∃ c p, black_scholes 1 1 1 0 1 "call" = Except.ok c ∧
      black_scholes 1 1 1 0 1 "put" = Except.ok p ∧
      c - p = 1 - 1 * Real.exp (-(0 * 1)) :=
  ⟨by norm_num,
    c2_put_call_parity 1 1 1 0 1 (by norm_num) (by norm_num) (by norm_num) (by norm_num)⟩

/-- Claim C3: for every parameter set with `S > 0`, `K > 0`, `T > 0`,
`σ > 0` and any real `r`, the Greeks calculator returns exactly the
closed-form sensitivities of the specification (`specGreeksCall` /
`specGreeksPut`): delta `Φ(d1)` (call) and `Φ(d1) − 1` (put); gamma
`φ(d1)/(S·σ·√T)`; theta `−(S·φ(d1)·σ)/(2√T) − r·K·e^(−rT)·Φ(d2)` (call)
and with the `rK` term sign-flipped on `Φ(−d2)` (put); vega `S·√T·φ(d1)`;
rho `K·T·e^(−rT)·Φ(d2)` (call) and `−K·T·e^(−rT)·Φ(−d2)` (put). -/
theorem c3_greeks_formulas (S K T r sigma : ℝ)
    (hS : 0 < S) (hK : 0 < K) (hT : 0 < T) (hsig : 0 < sigma) :
    calculate_greeks S K T r sigma "call" = specGreeksCall S K T r sigma ∧
    calculate_greeks S K T r sigma "put" = specGreeksPut S K T r sigma :=
  ⟨calculate_greeks_call S K T r sigma, calculate_greeks_put S K T r sigma⟩

/-- Witness for C3 at `S = K = T = σ = 1`, `r = 0`. -/
theorem c3_greeks_formulas_witness :
    (0 : ℝ) < 1 ∧
    (calculate_greeks 1 1 1 0 1 "call" = specGreeksCall 1 1 1 0 1 ∧
     calculate_greeks 1 1 1 0 1 "put" = specGreeksPut 1 1 1 0 1) :=
  ⟨by norm_num,
    c3_greeks_formulas 1 1 1 0 1 (by norm_num) (by norm_num) (by norm_num) (by norm_num)⟩

/-- Claim C4: for every parameter set with `S > 0`, `K > 0`, `T > 0`,
`σ > 0`, any real `r`, each side and every `N ≥ 1`, the lattice solver
returns the root value `V[0,0]` of the backward-induction recursion
(`specV`): with `Δt = T/N`, `u = e^(σ√Δt)`, `d = 1/u`,
`p = (e^(rΔt) − d)/(u − d)`, terminal values the payoff at
`S·u^(N−j)·d^j` and interior values
`V[j,i] = e^(−rΔt)·(p·V[j,i+1] + (1−p)·V[j+1,i+1])`. -/
theorem c4_lattice_backward_induction (S K T r sigma : ℝ) (N : ℕ)
    (hS : 0 < S) (hK : 0 < K) (hT : 0 < T) (hsig : 0 < sigma) (hN : 1 ≤ N) :
    binomial_tree S K T r sigma N "call" = specV S K T r sigma N true 0 0 ∧
    binomial_tree S K T r sigma N "put" = specV S K T r sigma N false 0 0 := by
  constructor
  · have h := btAux_eq_specV S K T r sigma N "call" true (by simp) N 0 le_rfl
    rwa [Nat.sub_self] at h
  · have h := btAux_eq_specV S K T r sigma N "put" false (by decide) N 0 le_rfl
    rwa [Nat.sub_self] at h

/-- Witness for C4 at `S = K = T = σ = 1`, `r = 0`, `N = 1`. -/
theorem c4_lattice_backward_induction_witness :
    1 ≤ 1 ∧
    (binomial_tree 1 1 1 0 1 1 "call" = specV 1 1 1 0 1 1 true 0 0 ∧
     binomial_tree 1 1 1 0 1 1 "put" = specV 1 1 1 0 1 1 false 0 0) :=
  ⟨le_rfl, c4_lattice_backward_induction 1 1 1 0 1 1
    (by norm_num) (by norm_num) (by norm_num) (by norm_num) le_rfl⟩

/-- Counterexample to claim C5: at `S = K = 1`, `T = 0`, `r = 0`, `σ = 1`
(so `T ≤ 0`), the closed-form solver does not signal an error: it returns a
numeric result.  (In IEEE float arithmetic the Python source divides by
zero and returns NaN without raising; no exception occurs either way.  Over
the real-number model the division by zero yields `0`, so the returned
value is `S·Φ(0) − K·Φ(0) = 0`.) -/
theorem c5_counterexample : black_scholes 1 1 0 0 1 "call" = Except.ok 0 := by
  rw [black_scholes_call]
  norm_num [specCallPrice, specD1, specD2, Real.log_one, Real.sqrt_zero, Real.exp_zero]

/-- Claim C5, amended: for `T ≤ 0` or `σ ≤ 0` neither the closed-form
solver nor the Greeks calculator signals an error; both return numeric
results (NaN under IEEE semantics).  The solver's only typed failure is the
invalid-option-type branch, which does not inspect `T` or `σ`; the Greeks
calculator is a total function with no error branch at all. -/
theorem c5_no_error_on_degenerate_inputs (S K T r sigma : ℝ)
    (hdeg : T ≤ 0 ∨ sigma ≤ 0) :
    (∃ y, black_scholes S K T r sigma "call" = Except.ok y) ∧
    (∃ y, black_scholes S K T r sigma "put" = Except.ok y) ∧
    (calculate_greeks S K T r sigma "call").delta =
      normCdf ((Real.log (S / K) + (r + 0.5 * sigma ^ 2) * T) / (sigma * Real.sqrt T)) := by
  refine ⟨⟨_, black_scholes_call S K T r sigma⟩, ⟨_, black_scholes_put S K T r sigma⟩, ?_⟩
  simp only [calculate_greeks, reduceIte]

/-- Witness for the amended C5 at `T = 0`. -/
theorem c5_no_error_on_degenerate_inputs_witness :
    ((0 : ℝ) ≤ 0 ∨ (1 : ℝ) ≤ 0) ∧
    ((∃ y, black_scholes 1 1 0 0 1 "call" = Except.ok y) ∧
     (∃ y, black_scholes 1 1 0 0 1 "put" = Except.ok y) ∧
     (calculate_greeks 1 1 0 0 1 "call").delta =
       normCdf ((Real.log (1 / 1) + (0 + 0.5 * 1 ^ 2) * 0) / (1 * Real.sqrt 0))) :=
  ⟨Or.inl le_rfl, c5_no_error_on_degenerate_inputs 1 1 0 0 1 (Or.inl le_rfl)⟩

/-- Counterexample to claim C6: at the invalid option side `"banana"` the
lattice solver and the simulation solver do not signal an error — each
returns the corresponding put price. -/
theorem c6_counterexample :
    binomial_tree 100 100 1 0 1 1 "banana" = binomial_tree 100 100 1 0 1 1 "put" ∧
    (monte_carlo (fun _ _ => [0]) (fun st m => st + m) 0 100 100 1 0 1 1 "banana").1 =
      (monte_carlo (fun _ _ => [0]) (fun st m => st + m) 0 100 100 1 0 1 1 "put").1 := by
  constructor
  · exact btAux_ne_call 100 100 1 0 1 1 "banana" (by decide) 1 0
  · rw [monte_carlo_ne_call _ _ _ _ _ _ _ _ _ _ (by decide : ¬("banana" : String) = "call")]

/-- Claim C6, amended: only the closed-form solver rejects an invalid
option side with a typed error; the lattice and simulation solvers accept
any side string and treat every side other than `"call"` as a put. -/
theorem c6_invalid_side_behavior (normals : ℕ → ℕ → List ℝ) (advance : ℕ → ℕ → ℕ)
    (st : ℕ) (S K T r sigma : ℝ) (M N : ℕ) (ot : String)
    (h1 : ¬ot = "call") (h2 : ¬ot = "put") :
    black_scholes S K T r sigma ot = Except.error PricingError.invalidOptionType ∧
    binomial_tree S K T r sigma N ot = binomial_tree S K T r sigma N "put" ∧
    (monte_carlo normals advance st S K T r sigma M ot).1 =
      (monte_carlo normals advance st S K T r sigma M "put").1 := by
  refine ⟨?_, btAux_ne_call S K T r sigma N ot h1 N 0, ?_⟩
  · simp only [black_scholes, if_neg h1, if_neg h2]
  · rw [monte_carlo_ne_call _ _ _ _ _ _ _ _ _ _ h1]

/-- Witness for the amended C6 at side `"banana"`. -/
theorem c6_invalid_side_behavior_witness :
    ¬("banana" : String) = "call" ∧
    (black_scholes 1 1 1 0 1 "banana" = Except.error PricingError.invalidOptionType ∧
     binomial_tree 1 1 1 0 1 1 "banana" = binomial_tree 1 1 1 0 1 1 "put" ∧
     (monte_carlo (fun _ _ => [0]) (fun st m => st + m) 0 1 1 1 0 1 1 "banana").1 =
       (monte_carlo (fun _ _ => [0]) (fun st m => st + m) 0 1 1 1 0 1 1 "put").1) :=
  ⟨by decide, c6_invalid_side_behavior (fun _ _ => [0]) (fun st m => st + m) 0 1 1 1 0 1
    1 1 "banana" (by decide) (by decide)⟩

/-- Counterexample to claim C7: on a chronological series of exactly 2
points the estimator's value is the pandas sample standard deviation
(`ddof = 1`) of a single log return, which is NaN (`none`), not a finite
non-negative number; and on series of 0 or 1 points it likewise returns NaN
without raising any error. -/
theorem c7_counterexample :
    calculate_historical_volatility (fun _ _ => [100, 110]) "AAPL" "1y" = none ∧
    calculate_historical_volatility (fun _ _ => []) "AAPL" "1y" = none ∧
    calculate_historical_volatility (fun _ _ => [100]) "AAPL" "1y" = none :=
  ⟨rfl, rfl, rfl⟩

/-- Claim C7, amended: the estimator never raises; on a series of fewer
than 3 points it returns NaN (`none`), and on a series of at least 3
(positive) prices it returns the sample standard deviation (`ddof = 1`) of
the successive log returns multiplied by `√252`, a non-negative real. -/
theorem c7_volatility_behavior (fetchClose : String → String → List ℝ)
    (ticker period : String)
    (h3 : 3 ≤ (fetchClose ticker period).length)
    (hpos : ∀ price ∈ fetchClose ticker period, (0 : ℝ) < price) :
    ∃ s, 0 ≤ s ∧ sampleStd (logReturns (fetchClose ticker period)) = some s ∧
      calculate_historical_volatility fetchClose ticker period = some (s * Real.sqrt 252) ∧
      0 ≤ s * Real.sqrt 252 := by
  have hlen : 2 ≤ (logReturns (fetchClose ticker period)).length := by
    have := length_logReturns (fetchClose ticker period)
    omega
  obtain ⟨s, hs⟩ : ∃ s, sampleStd (logReturns (fetchClose ticker period)) = some s := by
    rw [sampleStd, if_pos hlen]
    exact ⟨_, rfl⟩
  have hs0 : 0 ≤ s := by
    rw [sampleStd, if_pos hlen] at hs
    have := Option.some.inj hs
    rw [← this]
    exact Real.sqrt_nonneg _
  refine ⟨s, hs0, hs, ?_, mul_nonneg hs0 (Real.sqrt_nonneg _)⟩
  rw [calculate_historical_volatility, hs, Option.map_some']

/-- Witness for the amended C7 on the 3-point series `[1, 1, 1]`. -/
theorem c7_volatility_behavior_witness :
    3 ≤ ([(1 : ℝ), 1, 1]).length ∧
    ∃ s, 0 ≤ s ∧ sampleStd (logReturns ((fun _ _ => [(1 : ℝ), 1, 1]) "AAPL" "1y")) = some s ∧
      calculate_historical_volatility (fun _ _ => [(1 : ℝ), 1, 1]) "AAPL" "1y" =
        some (s * Real.sqrt 252) ∧
      0 ≤ s * Real.sqrt 252 :=
  ⟨by norm_num, c7_volatility_behavior (fun _ _ => [(1 : ℝ), 1, 1]) "AAPL" "1y"
    (by norm_num) (by intro price hp; fin_cases hp <;> norm_num)⟩

/-- Claim C8: determinism of the simulation solver.  The computed price
does not depend on the pre-existing global RNG state (the body reseeds the
generator with the fixed seed 42 before drawing), so two calls with
identical arguments — including the second call running on the RNG state
the first call left behind — return identical prices. -/
theorem c8_simulation_deterministic (normals : ℕ → ℕ → List ℝ) (advance : ℕ → ℕ → ℕ)
    (s1 s2 : ℕ) (S K T r sigma : ℝ) (M : ℕ) (ot : String) :
    (monte_carlo normals advance s1 S K T r sigma M ot).1 =
      (monte_carlo normals advance s2 S K T r sigma M ot).1 ∧
    (monte_carlo normals advance
        (monte_carlo normals advance s1 S K T r sigma M ot).2 S K T r sigma M ot).1 =
      (monte_carlo normals advance s1 S K T r sigma M ot).1 :=
  ⟨rfl, rfl⟩

/-- Counterexample to claim C9: the simulation solver mutates shared state
— its exit RNG state (`advance 42 M` after reseeding to 42) differs from
its entry state — and the volatility estimator's result depends on data
fetched from the network, not only on its explicit inputs (two fetch
environments give different results for the same ticker and period). -/
theorem c9_counterexample :
    (monte_carlo (fun _ _ => []) (fun st m => st + m) 0 100 100 1 (1/20) (1/5) 10 "call").2 ≠ 0 ∧
    calculate_historical_volatility (fun _ _ => []) "AAPL" "1y" ≠
      calculate_historical_volatility (fun _ _ => [1, 1, 1, 1]) "AAPL" "1y" := by
  constructor
  · decide
  · simp [calculate_historical_volatility, logReturns, sampleStd]

/-- Claim C9, amended: the closed-form solver, lattice solver and Greeks
calculator are pure functions of their explicit inputs (their embeddings
take no state); the simulation solver's price is independent of the prior
global RNG state but the call overwrites that shared state (exit state
`advance 42 M`, from reseeding with the fixed seed); the volatility
estimator's result is a function of the externally fetched close series. -/
theorem c9_effects_characterization (normals : ℕ → ℕ → List ℝ) (advance : ℕ → ℕ → ℕ)
    (s : ℕ) (S K T r sigma : ℝ) (M : ℕ) (ot : String)
    (fetchClose fetchClose' : String → String → List ℝ) (ticker period : String)
    (hfetch : fetchClose ticker period = fetchClose' ticker period) :
    (monte_carlo normals advance s S K T r sigma M ot).1 =
      (monte_carlo normals advance 0 S K T r sigma M ot).1 ∧
    (monte_carlo normals advance s S K T r sigma M ot).2 = advance 42 M ∧
    calculate_historical_volatility fetchClose ticker period =
      calculate_historical_volatility fetchClose' ticker period :=
  ⟨rfl, rfl, by simp only [calculate_historical_volatility, hfetch]⟩

/-- Witness for the amended C9 at concrete RNG and fetch environments. -/
theorem c9_effects_characterization_witness :
    (monte_carlo (fun _ _ => []) (fun st m => st + m) 7 1 1 1 0 1 5 "call").1 =
      (monte_carlo (fun _ _ => []) (fun st m => st + m) 0 1 1 1 0 1 5 "call").1 ∧
    (monte_carlo (fun _ _ => []) (fun st m => st + m) 7 1 1 1 0 1 5 "call").2 =
      (fun st m => st + m) 42 5 ∧
    calculate_historical_volatility (fun _ _ => [1, 2]) "AAPL" "1y" =
      calculate_historical_volatility (fun _ _ => [1, 2]) "AAPL" "1y" :=
  c9_effects_characterization (fun _ _ => []) (fun st m => st + m) 7 1 1 1 0 1 5 "call"
    (fun _ _ => [1, 2]) (fun _ _ => [1, 2]) "AAPL" "1y" rfl

/-- Claim C10: non-negativity.  For `S > 0`, `K > 0`, `T ≥ 0`, `σ > 0`, any
real `r`, any side and `M ≥ 1` draws, the simulation price is `≥ 0`; and
for any `N ≥ 1`, whenever the risk-neutral probability `p` lies in `[0,1]`,
the lattice price is `≥ 0`. -/
theorem c10_prices_nonneg (normals : ℕ → ℕ → List ℝ) (advance : ℕ → ℕ → ℕ) (st : ℕ)
    (S K T r sigma : ℝ) (M N : ℕ) (ot : String)
    (hS : 0 < S) (hK : 0 < K) (hT : 0 ≤ T) (hsig : 0 < sigma) (hM : 1 ≤ M)
    (hlen : (normals 42 M).length = M) (hN : 1 ≤ N) :
    0 ≤ (monte_carlo normals advance st S K T r sigma M ot).1 ∧
    (0 ≤ btP T r sigma N → btP T r sigma N ≤ 1 →
      0 ≤ binomial_tree S K T r sigma N ot) := by
  constructor
  · simp only [monte_carlo]
    refine mul_nonneg (Real.exp_pos _).le (div_nonneg ?_ (Nat.cast_nonneg _))
    refine List.sum_nonneg fun x hx => ?_
    simp only [List.mem_map] at hx
    obtain ⟨a, _, rfl⟩ := hx
    exact optionPayoff_nonneg _ _ _
  · intro hp0 hp1
    exact btAux_nonneg S K T r sigma N ot hp0 hp1 N 0

/-- Witness for C10 at `S = K = T = σ = 1`, `r = 0`, `M = N = 1`, where
`p = (1 − e⁻¹)/(e − e⁻¹) ∈ [0, 1]`. -/
theorem c10_prices_nonneg_witness :
    0 ≤ btP 1 0 1 1 ∧ btP 1 0 1 1 ≤ 1 ∧
    0 ≤ (monte_carlo (fun _ _ => [0]) (fun st m => st + m) 0 1 1 1 0 1 1 "call").1 ∧
    0 ≤ binomial_tree 1 1 1 0 1 1 "call" := by
  have he : (1 : ℝ) < Real.exp 1 := by linarith [Real.exp_one_gt_d9]
  have hinv : 1 / Real.exp 1 < 1 := by
    rw [div_lt_one (Real.exp_pos 1)]
    exact he
  have hinvpos : 0 < 1 / Real.exp 1 := by positivity
  have hbtP : btP 1 0 1 1 = (1 - 1 / Real.exp 1) / (Real.exp 1 - 1 / Real.exp 1) := by
    simp only [btP, btU, btD, btDt, Nat.cast_one]
    norm_num [Real.sqrt_one, Real.exp_zero]
  have hp0 : 0 ≤ btP 1 0 1 1 := by
    rw [hbtP]
    exact div_nonneg (by linarith) (by linarith)
  have hp1 : btP 1 0 1 1 ≤ 1 := by
    rw [hbtP, div_le_one (by linarith)]
    linarith
  have h := c10_prices_nonneg (fun _ _ => [0]) (fun st m => st + m) 0 1 1 1 0 1 1 1 "call"
    (by norm_num) (by norm_num) (by norm_num) (by norm_num) le_rfl rfl le_rfl
  exact ⟨hp0, hp1, h.1, h.2 hp0 hp1⟩
